import Mathlib

/-!
# Verification of the dasy-csat-api document catalog

A shallow embedding, in Lean 4, of the core logic of the `dasy-csat-api`
repository: the Korean text normalizer (`normalize('NFC')` as used by
`DocumentsService.normalizeKoreanText` and `KoreanNormalizationFixer`),
the exam filename parser (`ExamFileUploader.parseFilename`), the document
filter service (`DocumentsService.getDocumentsWithFilters` /
`getAvailableFilterValues`), the HTTP query decoding
(`DocumentsController.getDocumentsWithFilters`), and the batch upload loop
(`ExamFileUploader.processFile` / `uploadAllFiles`).

Strings are modelled as lists of Unicode code points (`Str := List Nat`);
every JavaScript string operation used by the code (split, trim, endsWith,
slice, `parseInt`, template joins) is translated over that representation.
`String.prototype.normalize('NFC')` is modelled by the Hangul part of
Unicode canonical composition (L+V and LV+T jamo composition), which is
the behaviour of NFC on the Korean text this system handles; Hangul jamo
all have canonical combining class 0, so no reordering step is involved.
-/

/-- A JavaScript string, as its list of Unicode code points. -/
abbrev Str := List Nat

namespace DasyCsat

/-! ## Text normalizer (model of `String.prototype.normalize('NFC')` on Hangul)

Constants from the Unicode Hangul syllable composition algorithm:
leading consonants (L) U+1100..U+1112, vowels (V) U+1161..U+1175,
trailing consonants (T) U+11A8..U+11C2, precomposed syllables
U+AC00..U+D7A3. -/

/-- `c` is a Hangul leading-consonant jamo (L). -/
def isL (c : Nat) : Bool := 0x1100 ≤ c && c ≤ 0x1112

/-- `c` is a Hangul vowel jamo (V). -/
def isV (c : Nat) : Bool := 0x1161 ≤ c && c ≤ 0x1175

/-- `c` is a Hangul trailing-consonant jamo (T). -/
def isT (c : Nat) : Bool := 0x11A8 ≤ c && c ≤ 0x11C2

/-- `c` is a precomposed Hangul syllable. -/
def isSyl (c : Nat) : Bool := 0xAC00 ≤ c && c ≤ 0xD7A3

/-- `c` is a precomposed Hangul syllable with no trailing consonant (LV). -/
def isLVSyl (c : Nat) : Bool := isSyl c && (c - 0xAC00) % 28 == 0

/-- The pair `(a, b)` composes canonically: L followed by V, or an LV
syllable followed by T. -/
def canCombine (a b : Nat) : Bool := (isL a && isV b) || (isLVSyl a && isT b)

/-- Canonical composition of a composable pair. -/
def combine (a b : Nat) : Nat :=
  if isL a && isV b then 0xAC00 + ((a - 0x1100) * 21 + (b - 0x1161)) * 28
  else a + (b - 0x11A7)

/-- One left-to-right composition pass: `p` is the pending character, which
absorbs following jamo as long as the pair composes. -/
def composeAux : Nat → List Nat → List Nat
  | p, [] => [p]
  | p, c :: rest =>
    if canCombine p c then composeAux (combine p c) rest
    else p :: composeAux c rest

/-- Hangul canonical composition of a code point sequence: the Hangul part
of NFC. -/
def hangulNFC : List Nat → List Nat
  | [] => []
  | c :: rest => composeAux c rest

/-- Model of `DocumentsService.normalizeKoreanText` (and the identical
`KoreanNormalizationFixer.normalizeKoreanText`): `if (!text) return text;
return text.normalize('NFC')`.  The empty string is falsy in JavaScript,
so it is returned unchanged. -/
def normalizeKoreanText (s : Str) : Str := if s = [] then s else hangulNFC s

/-- Model of `KoreanNormalizationFixer.needsNormalization`. -/
def needsNormalization (s : Str) : Bool :=
  if s = [] then false else decide (normalizeKoreanText s ≠ s)

/-- A sequence is in composed (canonical) form: no adjacent pair composes. -/
def Composed (l : List Nat) : Prop :=
  List.Chain' (fun a b => canCombine a b = false) l

/-- Boolean check for `Composed`. -/
def composedB : List Nat → Bool
  | [] => true
  | [_] => true
  | a :: b :: rest => !canCombine a b && composedB (b :: rest)

instance : DecidablePred Composed := fun l =>
  decidable_of_iff (composedB l = true) (by
    induction l with
    | nil => simp [composedB, Composed]
    | cons a l ih =>
      cases l with
      | nil => simp [composedB, Composed]
      | cons b rest =>
        rw [composedB, Composed, List.chain'_cons, Bool.and_eq_true,
          Bool.not_eq_true']
        exact and_congr Iff.rfl ih)

/-! ## JavaScript string primitives used by the scripts -/

/-- ASCII / Unicode whitespace as recognised by JS `trim` and `parseInt`
(the code points relevant here). -/
def isWS (c : Nat) : Bool :=
  c = 32 || c = 9 || c = 10 || c = 13 || c = 12 || c = 11

/-- Decimal digit code point. -/
def isDigitCp (c : Nat) : Bool := 48 ≤ c && c ≤ 57

/-- Value of a list of decimal digit code points, most significant first. -/
def digitsVal (l : List Nat) : Nat := l.foldl (fun a d => a * 10 + (d - 48)) 0

/-- Model of JavaScript `parseInt(s, 10)` (also `parseInt(s)` on inputs
without a `0x` prefix, which is all this code ever feeds it): skip leading
whitespace, read one optional sign, then the longest prefix of decimal
digits; `none` models `NaN` (no digits found). -/
def parseIntJS (s : Str) : Option Int :=
  let s1 := s.dropWhile isWS
  let sign : Int := if s1.head? = some 45 then -1 else 1
  let s2 := if s1.head? = some 45 || s1.head? = some 43 then s1.tail else s1
  let ds := s2.takeWhile isDigitCp
  if ds = [] then none else some (sign * (digitsVal ds : Int))

/-- `String.prototype.split('_')` over code points (delimiter `_` = 95). -/
def splitU : Str → List Str
  | [] => [[]]
  | c :: rest =>
    if c = 95 then [] :: splitU rest
    else
      match splitU rest with
      | [] => [[c]]
      | f :: r => (c :: f) :: r

/-- `Array.prototype.join('_')` over code points. -/
def joinU : List Str → Str
  | [] => []
  | [x] => x
  | x :: y :: xs => x ++ 95 :: joinU (y :: xs)

/-- `String.prototype.split(',')` over code points (delimiter `,` = 44). -/
def splitComma : Str → List Str
  | [] => [[]]
  | c :: rest =>
    if c = 44 then [] :: splitComma rest
    else
      match splitComma rest with
      | [] => [[c]]
      | f :: r => (c :: f) :: r

/-- `String.prototype.trim()`: strip leading and trailing whitespace. -/
def trimStr (s : Str) : Str :=
  ((s.dropWhile isWS).reverse.dropWhile isWS).reverse

/-- Decimal rendering of a natural number (digit accumulator with fuel;
the fuel `n + 1` always suffices since a number has at most `n + 1`
digits). -/
def natToStrGo : Nat → Nat → List Nat → List Nat
  | 0, _, acc => acc
  | fuel + 1, n, acc =>
    if n < 10 then (n + 48) :: acc
    else natToStrGo fuel (n / 10) ((n % 10 + 48) :: acc)

/-- Decimal rendering of a natural number, as JS `String(n)`. -/
def natToStr (n : Nat) : Str := natToStrGo (n + 1) n []

/-- Decimal rendering of an integer, as JS `String(z)` for integral `z`. -/
def intToStr (z : Int) : Str :=
  if z < 0 then 45 :: natToStr z.natAbs else natToStr z.toNat

/-! ## The filename parser (`ExamFileUploader.parseFilename`) -/

/-- `['고1', '고2', '고3']` (`ExamFileUploader.validGradeLevels`). -/
def validGradeLevels : List Str :=
  [[0xACE0, 0x31], [0xACE0, 0x32], [0xACE0, 0x33]]

/-- `['국어', '수학', '영어', '한국사', '사회탐구', '과학탐구', '직업탐구',
'제2외국어']` (`ExamFileUploader.validCategories`). -/
def validCategories : List Str :=
  [[0xAD6D, 0xC5B4], [0xC218, 0xD559], [0xC601, 0xC5B4],
   [0xD55C, 0xAD6D, 0xC0AC], [0xC0AC, 0xD68C, 0xD0D0, 0xAD6C],
   [0xACFC, 0xD559, 0xD0D0, 0xAD6C], [0xC9C1, 0xC5C5, 0xD0D0, 0xAD6C],
   [0xC81C, 0x32, 0xC678, 0xAD6D, 0xC5B4]]

/-- `['수능', '학력평가', '모의고사']` (`ExamFileUploader.validExamTypes`). -/
def validExamTypes : List Str :=
  [[0xC218, 0xB2A5], [0xD559, 0xB825, 0xD3C9, 0xAC00],
   [0xBAA8, 0xC758, 0xACE0, 0xC0AC]]

/-- `['평가원', '교육청', '사설']` (`ExamFileUploader.validSources`). -/
def validSources : List Str :=
  [[0xD3C9, 0xAC00, 0xC6D0], [0xAD50, 0xC721, 0xCCAD], [0xC0AC, 0xC124]]

/-- `['problem', 'answer', 'explanation']` (`ExamFileUploader.validDocTypes`). -/
def validDocTypes : List Str :=
  [[112, 114, 111, 98, 108, 101, 109], [97, 110, 115, 119, 101, 114],
   [101, 120, 112, 108, 97, 110, 97, 116, 105, 111, 110]]

/-- The parsed metadata record (`ExamMetadata` in `upload_exams.ts`).
`exam_year` / `exam_month` are the integral JS numbers produced by a
successful `parseInt`. -/
structure ExamMetadata where
  grade_level : Str
  category : Str
  subject : Str
  selection : Str
  exam_type : Str
  exam_year : Int
  exam_month : Int
  source : Str
  doc_type : Str
  filename : Str
deriving DecidableEq, Repr

/-- `.pdf` as code points. -/
def pdfExt : Str := [46, 112, 100, 102]

/-- The tail of `parseFilename` after the field positions have been fixed:
normalize every textual field to NFC, require `parseInt` of year and month
to be non-`NaN`, validate the five closed-vocabulary fields, and build the
record (with the original filename stored verbatim).  The source computes
the same checks and returns `null` when any of them fails. -/
def finishParse (g c s sel et ys ms src dt fname : Str) :
    Option ExamMetadata :=
  match parseIntJS ys, parseIntJS ms with
  | some y, some m =>
    if normalizeKoreanText g ∈ validGradeLevels ∧
        normalizeKoreanText c ∈ validCategories ∧
        normalizeKoreanText et ∈ validExamTypes ∧
        normalizeKoreanText src ∈ validSources ∧
        normalizeKoreanText dt ∈ validDocTypes then
      some { grade_level := normalizeKoreanText g,
             category := normalizeKoreanText c,
             subject := normalizeKoreanText s,
             selection := normalizeKoreanText sel,
             exam_type := normalizeKoreanText et, exam_year := y,
             exam_month := m, source := normalizeKoreanText src,
             doc_type := normalizeKoreanText dt,
             filename := fname }
    else none
  | _, _ => none

/-- Model of `ExamFileUploader.parseFilename`: require the `.pdf` suffix,
split the rest on `_`, accept exactly 8 or 9 fields, disambiguate the
optional selection slot (empty slot, exam-type collision, or a genuine
selection), then validate and build via `finishParse`. -/
def parseFilename (filename : Str) : Option ExamMetadata :=
  if filename.length ≥ 4 ∧ filename.drop (filename.length - 4) = pdfExt then
    match splitU (filename.take (filename.length - 4)) with
    | [g, c, s, et, ys, ms, src, dt] =>
      -- 8 parts: no selection field
      finishParse g c s [] et ys ms src dt filename
    | [g, c, s, p3, p4, p5, p6, p7, p8] =>
      if p3 = [] then
        -- double underscore: empty selection
        finishParse g c s [] p4 p5 p6 p7 p8 filename
      else if p3 ∈ validExamTypes then
        -- parts[3] is an exam type, so no selection; fields shift left
        finishParse g c s [] p3 p4 p5 p6 p7 filename
      else
        -- parts[3] is a genuine selection
        finishParse g c s p3 p4 p5 p6 p7 p8 filename
    | _ => none
  else none

/-- Joining the nine metadata fields with `_` plus the `.pdf` suffix: the
filename layout used by `generateNewFilename` in the rename script (empty
selection is included as an empty slot, i.e. a double underscore). -/
def buildFilename (r : ExamMetadata) : Str :=
  joinU [r.grade_level, r.category, r.subject, r.selection, r.exam_type,
         intToStr r.exam_year, intToStr r.exam_month, r.source,
         r.doc_type] ++ pdfExt

/-! ## Title, storage path and persisted record (upload pipeline) -/

/-- Model of `ExamFileUploader.generateTitle`:
`` `${grade} ${category} ${subject}${selectionText} ${exam_type}
${exam_year}년 ${exam_month}월 ${source}` `` where `selectionText` is
`` ` ${selection}` `` when the selection is non-empty (truthy). -/
def generateTitle (m : ExamMetadata) : Str :=
  m.grade_level ++ [32] ++ m.category ++ [32] ++ m.subject ++
    (if m.selection = [] then [] else 32 :: m.selection) ++ [32] ++
    m.exam_type ++ [32] ++ intToStr m.exam_year ++ [0xB144, 32] ++
    intToStr m.exam_month ++ [0xC6D4, 32] ++ m.source

/-- Model of `ExamFileUploader.generateStoragePath`:
`` `exams/${grade}/${category}/${subject}${selectionPath}/${exam_year}/${exam_month}/${source}/${doc_type}.pdf` ``
where `selectionPath` is `` `/${selection}` `` when the selection is
non-empty. -/
def generateStoragePath (m : ExamMetadata) : Str :=
  [101, 120, 97, 109, 115, 47] ++ m.grade_level ++ [47] ++ m.category ++
    [47] ++ m.subject ++ (if m.selection = [] then [] else 47 :: m.selection)
    ++ [47] ++ intToStr m.exam_year ++ [47] ++ intToStr m.exam_month ++ [47]
    ++ m.source ++ [47] ++ m.doc_type ++ pdfExt

/-- The row `ExamFileUploader.uploadToSupabase` upserts into `documents`
(`SupabaseRecord` in `upload_exams.ts`).  `correct_answers` and
`question_scores` are constant empty maps in the source and are not
modelled. -/
structure SupabaseRecord where
  id : Str
  title : Str
  subject : Str
  filename : Str
  storage_path : Str
  created_at : Str
  category : Str
  source : Str
  grade_level : Str
  exam_year : Int
  exam_month : Int
  exam_type : Str
  selection : Str
deriving DecidableEq, Repr

/-- The record built inside `uploadToSupabase` from parsed metadata; the
generated UUID and timestamp are parameters. -/
def buildSupabaseRecord (id createdAt : Str) (m : ExamMetadata)
    (storagePath : Str) : SupabaseRecord :=
  { id := id, title := generateTitle m, subject := m.subject,
    filename := m.filename, storage_path := storagePath,
    created_at := createdAt, category := m.category, source := m.source,
    grade_level := m.grade_level, exam_year := m.exam_year,
    exam_month := m.exam_month, exam_type := m.exam_type,
    selection := m.selection }

/-! ## Document catalog service (`DocumentsService`) -/

/-- A row of the `documents` table (the `Document` interface in
`documents.service.ts`; `source` is optional there). -/
structure Document where
  id : Str
  title : Str
  subject : Str
  category : Str
  exam_year : Int
  exam_month : Int
  exam_type : Str
  selection : Str
  grade_level : Str
  filename : Str
  storage_path : Str
  created_at : Str
  source : Option Str
deriving DecidableEq, Repr

/-- The `DocumentFilters` interface.  Numeric entries are JS numbers
arriving from `parseInt` in the controller, so an entry is `Option Int`
with `none` standing for `NaN`. -/
structure DocumentFilters where
  grade_levels : Option (List Str)
  categories : Option (List Str)
  exam_years : Option (List (Option Int))
  exam_months : Option (List (Option Int))
deriving DecidableEq, Repr

/-- One textual filter field of `getDocumentsWithFilters`: the guard
`filters.f && filters.f.length > 0` applies `query.in(col, f.map
normalizeKoreanText)`; otherwise the field imposes no constraint. -/
def strFieldOk (v : Str) : Option (List Str) → Bool
  | none => true
  | some l =>
    if 0 < l.length then decide (v ∈ l.map normalizeKoreanText) else true

/-- One numeric filter field of `getDocumentsWithFilters` (no
normalization; a `NaN` entry equals no number, so membership is
`some v ∈ l`). -/
def numFieldOk (v : Int) : Option (List (Option Int)) → Bool
  | none => true
  | some l => if 0 < l.length then decide (some v ∈ l) else true

/-- A document satisfies all four (independently optional) filter
fields. -/
def matchesFilters (f : DocumentFilters) (d : Document) : Bool :=
  strFieldOk d.grade_level f.grade_levels &&
  strFieldOk d.category f.categories &&
  numFieldOk d.exam_year f.exam_years &&
  numFieldOk d.exam_month f.exam_months

/-- Model of `DocumentsService.getDocumentsWithFilters`: the store rows
(already in created-at-descending order, as the adapter's
`order('created_at', descending)` returns them) restricted to the rows
satisfying every present filter field. -/
def getDocumentsWithFilters (f : DocumentFilters) (docs : List Document) :
    List Document :=
  docs.filter (matchesFilters f)

/-- Claim-side reading of one textual field of the AND/OR semantics: if
the field is present with a non-empty set, the document's value must lie
in the (normalized) set; an absent field imposes no constraint. -/
def fieldConstrStr (v : Str) (o : Option (List Str)) : Prop :=
  ∀ l, o = some l → l ≠ [] → v ∈ l.map normalizeKoreanText

/-- Claim-side reading of one numeric field of the AND/OR semantics. -/
def fieldConstrNum (v : Int) (o : Option (List (Option Int))) : Prop :=
  ∀ l, o = some l → l ≠ [] → some v ∈ l

/-! ## Available filter values (`getAvailableFilterValues`) -/

/-- `[...new Set(xs)]`: distinct elements, first occurrences first. -/
def uniqueAux {α : Type} [DecidableEq α] (seen : List α) : List α → List α
  | [] => []
  | x :: xs =>
    if x ∈ seen then uniqueAux seen xs else x :: uniqueAux (x :: seen) xs

/-- Distinct elements of a list, in order of first occurrence. -/
def uniqueFirst {α : Type} [DecidableEq α] (l : List α) : List α :=
  uniqueAux [] l

/-- JS default `Array.prototype.sort()` comparison on strings:
lexicographic by code unit (code point, on the BMP text this system
stores). -/
def lexLeB : Str → Str → Bool
  | [], _ => true
  | _ :: _, [] => false
  | a :: as, b :: bs => if a < b then true else if b < a then false else lexLeB as bs

/-- The string order as a relation. -/
def StrLe (a b : Str) : Prop := lexLeB a b = true

instance : DecidableRel StrLe := fun a b =>
  inferInstanceAs (Decidable (lexLeB a b = true))

instance : IsTotal Str StrLe where
  total := by
    intro a
    induction a with
    | nil => intro b; left; rfl
    | cons x xs ih =>
      intro b
      cases b with
      | nil => right; rfl
      | cons y ys =>
        rcases Nat.lt_trichotomy x y with h | h | h
        · left; simp [StrLe, lexLeB, h]
        · subst h
          rcases ih ys with h2 | h2
          · left; simpa [StrLe, lexLeB] using h2
          · right; simpa [StrLe, lexLeB] using h2
        · right; simp [StrLe, lexLeB, h]

instance : IsTrans Str StrLe where
  trans := by
    intro a
    induction a with
    | nil => intro b c _ _; rfl
    | cons x xs ih =>
      intro b c hab hbc
      cases b with
      | nil => exact absurd hab (by simp [StrLe, lexLeB])
      | cons y ys =>
        cases c with
        | nil => exact absurd hbc (by simp [StrLe, lexLeB])
        | cons z zs =>
          simp only [StrLe, lexLeB] at hab hbc ⊢
          rcases Nat.lt_trichotomy x y with hxy | hxy | hxy
          · rcases Nat.lt_trichotomy y z with hyz | hyz | hyz
            · rw [if_pos (show x < z by omega)]
            · rw [if_pos (show x < z by omega)]
            · rw [if_neg (by omega), if_pos (by omega)] at hbc
              exact absurd hbc (by simp)
          · rcases Nat.lt_trichotomy y z with hyz | hyz | hyz
            · rw [if_pos (show x < z by omega)]
            · rw [if_neg (by omega), if_neg (by omega)]
              rw [if_neg (by omega), if_neg (by omega)] at hab
              rw [if_neg (by omega), if_neg (by omega)] at hbc
              exact ih ys zs hab hbc
            · rw [if_neg (by omega), if_pos (by omega)] at hbc
              exact absurd hbc (by simp)
          · rw [if_neg (by omega), if_pos (by omega)] at hab
            exact absurd hab (by simp)

instance : IsTotal Int (fun a b : Int => b ≤ a) where
  total := fun a b => le_total b a

instance : IsTrans Int (fun a b : Int => b ≤ a) where
  trans := fun _ _ _ h1 h2 => le_trans h2 h1

instance : IsTotal Int (fun a b : Int => a ≤ b) where
  total := fun a b => le_total a b

instance : IsTrans Int (fun a b : Int => a ≤ b) where
  trans := fun _ _ _ h1 h2 => le_trans h1 h2

/-- The return shape of `getAvailableFilterValues`. -/
structure FilterValues where
  grade_levels : List Str
  categories : List Str
  exam_years : List Int
  exam_months : List Int
deriving DecidableEq, Repr

/-- Model of `DocumentsService.getAvailableFilterValues`: distinct
normalized values per dimension; `sort()` ascending for the two string
dimensions, `sort((a, b) => b - a)` (descending) for years and
`sort((a, b) => a - b)` (ascending) for months. -/
def getAvailableFilterValues (docs : List Document) : FilterValues :=
  { grade_levels := List.insertionSort StrLe
      (uniqueFirst (docs.map (fun d => normalizeKoreanText d.grade_level)))
  , categories := List.insertionSort StrLe
      (uniqueFirst (docs.map (fun d => normalizeKoreanText d.category)))
  , exam_years := List.insertionSort (fun a b : Int => b ≤ a)
      (uniqueFirst (docs.map (fun d => d.exam_year)))
  , exam_months := List.insertionSort (fun a b : Int => a ≤ b)
      (uniqueFirst (docs.map (fun d => d.exam_month))) }

/-! ## HTTP query decoding (`DocumentsController.getDocumentsWithFilters`) -/

/-- Model of the controller's filter construction.  Each query parameter
is an optional string; JS truthiness makes both an absent parameter and
the empty string skip the field.  Textual parameters split on `,` and
trim; numeric parameters split on `,`, trim and `parseInt(_, 10)` each
entry, keeping `NaN` (`none`) entries in the array. -/
def buildFilters (gradeLevels categories examYears examMonths : Option Str) :
    DocumentFilters :=
  { grade_levels :=
      match gradeLevels with
      | some s => if s = [] then none else some ((splitComma s).map trimStr)
      | none => none
  , categories :=
      match categories with
      | some s => if s = [] then none else some ((splitComma s).map trimStr)
      | none => none
  , exam_years :=
      match examYears with
      | some s =>
        if s = [] then none
        else some ((splitComma s).map (fun e => parseIntJS (trimStr e)))
      | none => none
  , exam_months :=
      match examMonths with
      | some s =>
        if s = [] then none
        else some ((splitComma s).map (fun e => parseIntJS (trimStr e)))
      | none => none }

/-- Keep only the well-formed (non-`NaN`) entries of a numeric filter
field (what the claim describes as "silently dropping" malformed
entries). -/
def wellFormedOnly (o : Option (List (Option Int))) :
    Option (List (Option Int)) :=
  match o with
  | none => none
  | some l => some ((l.filterMap id).map some)

/-- The filter built from only the well-formed numeric entries. -/
def dropMalformedFilters (f : DocumentFilters) : DocumentFilters :=
  { f with exam_years := wellFormedOnly f.exam_years,
           exam_months := wellFormedOnly f.exam_months }

/-! ## Batch upload (`processFile` / `uploadAllFiles`) -/

/-- `filename.endsWith('.pdf')`. -/
def endsWithPdf (f : Str) : Bool :=
  decide (f.length ≥ 4 ∧ f.drop (f.length - 4) = pdfExt)

/-- Outcome of `processFile` on one file: unparseable filenames are
logged and skipped; a failed S3 or Supabase upload returns `false`; a
full ingestion returns `true`. -/
inductive ProcessOutcome
  | skippedInvalid
  | uploadFailed
  | uploaded
deriving DecidableEq, Repr

/-- Model of `ExamFileUploader.processFile`.  The two external uploads
(S3, then Supabase metadata upsert) are abstracted as success predicates
on the file being processed. -/
def processFile (s3ok dbok : Str → Bool) (filename : Str) : ProcessOutcome :=
  match parseFilename filename with
  | none => ProcessOutcome.skippedInvalid
  | some _ =>
    if s3ok filename then
      if dbok filename then ProcessOutcome.uploaded
      else ProcessOutcome.uploadFailed
    else ProcessOutcome.uploadFailed

/-- Model of `ExamFileUploader.uploadAllFiles`: keep the `.pdf` files of
the directory listing and process each in order; the loop never aborts,
it only counts successes. -/
def uploadAllFiles (s3ok dbok : Str → Bool) (files : List Str) :
    List ProcessOutcome :=
  (files.filter endsWithPdf).map (processFile s3ok dbok)

/-! ## Concrete data used by the examples, witnesses and counterexamples -/

/-- `'고2'` (2nd-year). -/
def sGo2 : Str := [0xACE0, 0x32]

/-- `'고3'` (3rd-year). -/
def sGo3 : Str := [0xACE0, 0x33]

/-- `'국어'` (Korean). -/
def sKorean : Str := [0xAD6D, 0xC5B4]

/-- `'수학'` (Math). -/
def sMath : Str := [0xC218, 0xD559]

/-- `'수능'` (CSAT). -/
def sCSAT : Str := [0xC218, 0xB2A5]

/-- `'평가원'` (Evaluation Institute). -/
def sEval : Str := [0xD3C9, 0xAC00, 0xC6D0]

/-- `'problem'`. -/
def sProblem : Str := [112, 114, 111, 98, 108, 101, 109]

/-- A catalog row with the fields the filter examples care about. -/
def mkDoc (grade cat : Str) (year month : Int) : Document :=
  { id := [], title := [], subject := [], category := cat,
    exam_year := year, exam_month := month, exam_type := [],
    selection := [], grade_level := grade, filename := [],
    storage_path := [], created_at := [], source := none }

/-- D1: grade 고3 (3rd-year), category 국어 (Korean), year 2024. -/
def exD1 : Document := mkDoc sGo3 sKorean 2024 11

/-- D2: grade 고3 (3rd-year), category 수학 (Math), year 2024. -/
def exD2 : Document := mkDoc sGo3 sMath 2024 11

/-- D3: grade 고2 (2nd-year), category 국어 (Korean), year 2023. -/
def exD3 : Document := mkDoc sGo2 sKorean 2023 11

/-- `grade_levels={고3}, categories={국어, 수학}`. -/
def exF1 : DocumentFilters :=
  { grade_levels := some [sGo3], categories := some [sKorean, sMath],
    exam_years := none, exam_months := none }

/-- `exam_years={2023}`. -/
def exF2 : DocumentFilters :=
  { grade_levels := none, categories := none,
    exam_years := some [some 2023], exam_months := none }

/-- No fields present. -/
def exFnone : DocumentFilters :=
  { grade_levels := none, categories := none, exam_years := none,
    exam_months := none }

/-- A well-formed filename:
`고3_국어_국어__수능_2024_11_평가원_problem.pdf`. -/
def exFilename : Str :=
  joinU [sGo3, sKorean, sKorean, [], sCSAT, natToStr 2024, natToStr 11,
         sEval, sProblem] ++ pdfExt

/-- The metadata record `parseFilename` produces for `exFilename`. -/
def exMeta : ExamMetadata :=
  { grade_level := sGo3, category := sKorean, subject := sKorean,
    selection := [], exam_type := sCSAT, exam_year := 2024,
    exam_month := 11, source := sEval, doc_type := sProblem,
    filename := exFilename }

/-- A metadata record whose vocabulary fields are all valid but whose
selection is itself a valid exam-type string (`수능`). -/
def cexRecord : ExamMetadata :=
  { grade_level := sGo3, category := sKorean, subject := sKorean,
    selection := sCSAT, exam_type := sCSAT, exam_year := 2024,
    exam_month := 11, source := sEval, doc_type := sProblem,
    filename := [] }

/-- `고3_국어_국어__수능_2024x_11_평가원_problem.pdf`: a filename whose
year field `2024x` is not an integer. -/
def cexFilename6 : Str :=
  joinU [sGo3, sKorean, sKorean, [], sCSAT, natToStr 2024 ++ [120],
         natToStr 11, sEval, sProblem] ++ pdfExt

/-- `bad_file.pdf`: ends in `.pdf` but has only 2 underscore fields. -/
def cexBadFile : Str :=
  [98, 97, 100, 95, 102, 105, 108, 101] ++ pdfExt

/-- The metadata `parseFilename` produces for `cexFilename6` (the claim
expects rejection instead). -/
def cexMeta6 : ExamMetadata :=
  { grade_level := sGo3, category := sKorean, subject := sKorean,
    selection := [], exam_type := sCSAT, exam_year := 2024,
    exam_month := 11, source := sEval, doc_type := sProblem,
    filename := cexFilename6 }

/-- Catalog for the available-values example: years 2024, 2022, 2024,
2023. -/
def exDocs9 : List Document :=
  [mkDoc sGo3 sKorean 2024 11, mkDoc sGo3 sKorean 2022 6,
   mkDoc sGo3 sMath 2024 9, mkDoc sGo2 sKorean 2023 3]

/-- `고3_국어_국어_수능_2024_11_평가원_problem_X` (no extension): 9 fields
whose index-3 field is the exam type `수능`. -/
def exName3 : Str :=
  joinU [sGo3, sKorean, sKorean, sCSAT, natToStr 2024, natToStr 11, sEval,
         sProblem, [88]]

/-- `2024,x`: a numeric query parameter with one well-formed and one
malformed entry. -/
def cexYearsQ : Str := natToStr 2024 ++ [44, 120]

/-- The storage path the upload pipeline derives for `exMeta`:
`exams/고3/국어/국어/2024/11/평가원/problem.pdf`. -/
def exStoragePath : Str :=
  [101, 120, 97, 109, 115, 47, 0xACE0, 0x33, 47, 0xAD6D, 0xC5B4, 47,
   0xAD6D, 0xC5B4, 47, 50, 48, 50, 52, 47, 49, 49, 47, 0xD3C9, 0xAC00,
   0xC6D0, 47, 112, 114, 111, 98, 108, 101, 109, 46, 112, 100, 102]

/-! ### Lemmas about the composition pass -/

theorem isL_iff {c : Nat} : isL c = true ↔ 0x1100 ≤ c ∧ c ≤ 0x1112 := by
  simp [isL]

theorem isV_iff {c : Nat} : isV c = true ↔ 0x1161 ≤ c ∧ c ≤ 0x1175 := by
  simp [isV]

theorem isT_iff {c : Nat} : isT c = true ↔ 0x11A8 ≤ c ∧ c ≤ 0x11C2 := by
  simp [isT]

theorem isSyl_iff {c : Nat} : isSyl c = true ↔ 0xAC00 ≤ c ∧ c ≤ 0xD7A3 := by
  simp [isSyl]

theorem isLVSyl_iff {c : Nat} :
    isLVSyl c = true ↔ (0xAC00 ≤ c ∧ c ≤ 0xD7A3) ∧ (c - 0xAC00) % 28 = 0 := by
  simp [isLVSyl, isSyl, and_assoc]

theorem canCombine_iff {a b : Nat} :
    canCombine a b = true ↔
      (isL a = true ∧ isV b = true) ∨ (isLVSyl a = true ∧ isT b = true) := by
  simp [canCombine]

theorem combine_isSyl {a b : Nat} (h : canCombine a b = true) :
    isSyl (combine a b) = true := by
  unfold combine
  split
  next hcond =>
    rw [Bool.and_eq_true, isL_iff, isV_iff] at hcond
    rw [isSyl_iff]
    omega
  next hcond =>
    rw [canCombine_iff] at h
    rcases h with h | h
    · exact absurd (Bool.and_eq_true _ _ |>.mpr h) hcond
    · obtain ⟨hlv, ht⟩ := h
      rw [isLVSyl_iff] at hlv
      rw [isT_iff] at ht
      rw [isSyl_iff]
      omega

theorem isSyl_not_snd {a b : Nat} (h : isSyl b = true) :
    canCombine a b = false := by
  rw [isSyl_iff] at h
  rw [Bool.eq_false_iff]
  intro hc
  rw [canCombine_iff] at hc
  rcases hc with ⟨_, hv⟩ | ⟨_, ht⟩
  · rw [isV_iff] at hv; omega
  · rw [isT_iff] at ht; omega

/-- The head of a composition pass is the pending character itself or a
precomposed syllable. -/
theorem composeAux_head :
    ∀ (l : List Nat) (p : Nat),
      (composeAux p l).head? = some p ∨
        ∃ h, (composeAux p l).head? = some h ∧ isSyl h = true := by
  intro l
  induction l with
  | nil => intro p; left; rfl
  | cons c rest ih =>
    intro p
    by_cases hc : canCombine p c = true
    · simp only [composeAux, if_pos hc]
      rcases ih (combine p c) with h | ⟨h, hh, hs⟩
      · right; exact ⟨combine p c, h, combine_isSyl hc⟩
      · right; exact ⟨h, hh, hs⟩
    · simp only [composeAux, if_neg hc]
      left; rfl

/-- The output of the composition pass contains no composable pair. -/
theorem composeAux_composed :
    ∀ (l : List Nat) (p : Nat), Composed (composeAux p l) := by
  intro l
  induction l with
  | nil => intro p; simp [composeAux, Composed]
  | cons c rest ih =>
    intro p
    by_cases hc : canCombine p c = true
    · simp only [composeAux, if_pos hc]; exact ih (combine p c)
    · simp only [composeAux, if_neg hc]
      rw [Composed, List.chain'_cons']
      refine ⟨?_, ih c⟩
      intro y hy
      rcases composeAux_head rest c with h | ⟨h, hh, hs⟩
      · rw [h] at hy
        simp only [Option.mem_def, Option.some.injEq] at hy
        subst hy
        exact Bool.not_eq_true _ ▸ hc
      · rw [hh] at hy
        simp only [Option.mem_def, Option.some.injEq] at hy
        subst hy
        exact isSyl_not_snd hs

/-- The composition pass fixes already-composed input. -/
theorem composeAux_fixed :
    ∀ (l : List Nat) (p : Nat), Composed (p :: l) → composeAux p l = p :: l := by
  intro l
  induction l with
  | nil => intro p _; rfl
  | cons c rest ih =>
    intro p hp
    rw [Composed, List.chain'_cons] at hp
    have hneg : ¬ canCombine p c = true := by rw [hp.1]; simp
    simp only [composeAux, if_neg hneg]
    rw [ih c hp.2]

theorem hangulNFC_composed (l : List Nat) : Composed (hangulNFC l) := by
  cases l with
  | nil => simp [hangulNFC, Composed]
  | cons c rest => exact composeAux_composed rest c

theorem hangulNFC_fixed {l : List Nat} (h : Composed l) : hangulNFC l = l := by
  cases l with
  | nil => rfl
  | cons c rest => exact composeAux_fixed rest c h

theorem hangulNFC_idem (l : List Nat) :
    hangulNFC (hangulNFC l) = hangulNFC l :=
  hangulNFC_fixed (hangulNFC_composed l)

theorem composeAux_ne_nil : ∀ (l : List Nat) (p : Nat), composeAux p l ≠ [] := by
  intro l
  induction l with
  | nil => intro p; simp [composeAux]
  | cons c rest ih =>
    intro p
    by_cases hc : canCombine p c = true
    · simp only [composeAux, if_pos hc]; exact ih (combine p c)
    · simp [composeAux, if_neg hc]

theorem hangulNFC_nil_iff {l : List Nat} : hangulNFC l = [] ↔ l = [] := by
  cases l with
  | nil => simp [hangulNFC]
  | cons c rest =>
    simp only [hangulNFC]
    exact ⟨fun h => absurd h (composeAux_ne_nil rest c), fun h => by cases h⟩

theorem normalizeKoreanText_idem (s : Str) :
    normalizeKoreanText (normalizeKoreanText s) = normalizeKoreanText s := by
  by_cases h : s = []
  · subst h; rfl
  · simp only [normalizeKoreanText, if_neg h]
    rw [if_neg (fun hx => h (hangulNFC_nil_iff.mp hx))]
    exact hangulNFC_idem s

theorem normalizeKoreanText_fixed {s : Str} (h : Composed s) :
    normalizeKoreanText s = s := by
  by_cases hn : s = []
  · subst hn; rfl
  · simp only [normalizeKoreanText, if_neg hn]; exact hangulNFC_fixed h

theorem normalizeKoreanText_composed (s : Str) :
    Composed (normalizeKoreanText s) := by
  by_cases hn : s = []
  · subst hn; simp [normalizeKoreanText, Composed]
  · simp only [normalizeKoreanText, if_neg hn]; exact hangulNFC_composed s

/-! ### Decimal rendering and `parseInt` -/

theorem digitsVal_append_last (ds : List Nat) (d : Nat) :
    digitsVal (ds ++ [d]) = digitsVal ds * 10 + (d - 48) := by
  simp [digitsVal, List.foldl_append]

theorem natToStrGo_spec :
    ∀ (fuel n : Nat) (acc : List Nat), 0 < fuel → n < 10 ^ fuel →
      ∃ ds, natToStrGo fuel n acc = ds ++ acc ∧ ds ≠ [] ∧
        (∀ d ∈ ds, isDigitCp d = true) ∧ digitsVal ds = n := by
  intro fuel
  induction fuel with
  | zero => intro n acc h0 _; exact absurd h0 (lt_irrefl 0)
  | succ fuel ih =>
    intro n acc _ hlt
    by_cases h10 : n < 10
    · refine ⟨[n + 48], ?_, by simp, ?_, ?_⟩
      · simp [natToStrGo, h10]
      · intro d hd
        simp only [List.mem_singleton] at hd
        subst hd
        simp only [isDigitCp, Bool.and_eq_true, decide_eq_true_eq]
        omega
      · simp [digitsVal]
    · have hfuel : 0 < fuel := by
        rcases Nat.eq_zero_or_pos fuel with hf | hf
        · subst hf; simp at hlt; omega
        · exact hf
      have hdiv : n / 10 < 10 ^ fuel := by
        rw [pow_succ] at hlt; omega
      obtain ⟨ds, heq, hne, hdig, hval⟩ :=
        ih (n / 10) ((n % 10 + 48) :: acc) hfuel hdiv
      refine ⟨ds ++ [n % 10 + 48], ?_, by simp, ?_, ?_⟩
      · simp only [natToStrGo, if_neg h10, heq, List.append_assoc,
          List.cons_append, List.nil_append]
      · intro d hd
        rcases List.mem_append.mp hd with h | h
        · exact hdig d h
        · simp only [List.mem_singleton] at h
          subst h
          simp only [isDigitCp, Bool.and_eq_true, decide_eq_true_eq]
          omega
      · rw [digitsVal_append_last, hval]; omega

theorem natToStr_spec (n : Nat) :
    natToStr n ≠ [] ∧ (∀ d ∈ natToStr n, isDigitCp d = true) ∧
      digitsVal (natToStr n) = n := by
  have hlt : n < 10 ^ (n + 1) := by
    calc n < 10 ^ n := Nat.lt_pow_self (by norm_num) n
    _ ≤ 10 ^ (n + 1) := Nat.pow_le_pow_right (by norm_num) (Nat.le_succ n)
  obtain ⟨ds, heq, hne, hdig, hval⟩ :=
    natToStrGo_spec (n + 1) n [] (Nat.succ_pos n) hlt
  rw [List.append_nil] at heq
  rw [natToStr, heq]
  exact ⟨hne, hdig, hval⟩

theorem takeWhile_all {α : Type} {p : α → Bool} :
    ∀ {l : List α}, (∀ x ∈ l, p x = true) → l.takeWhile p = l := by
  intro l
  induction l with
  | nil => intro _; rfl
  | cons x xs ih =>
    intro h
    rw [List.takeWhile_cons, if_pos (h x (by simp))]
    rw [ih (fun y hy => h y (by simp [hy]))]

theorem isDigitCp_facts {d : Nat} (h : isDigitCp d = true) :
    isWS d = false ∧ d ≠ 45 ∧ d ≠ 43 ∧ d ≠ 95 ∧ d ≠ 44 := by
  simp only [isDigitCp, Bool.and_eq_true, decide_eq_true_eq] at h
  refine ⟨?_, by omega, by omega, by omega, by omega⟩
  simp only [isWS, Bool.or_eq_false_iff, decide_eq_false_iff_not]
  omega

theorem parseIntJS_digits {l : List Nat} (hne : l ≠ [])
    (hd : ∀ d ∈ l, isDigitCp d = true) :
    parseIntJS l = some ((digitsVal l : Int)) := by
  obtain ⟨d, rest, rfl⟩ := List.exists_cons_of_ne_nil hne
  obtain ⟨hws, h45, h43, _, _⟩ := isDigitCp_facts (hd d (by simp))
  have hdrop : (d :: rest).dropWhile isWS = d :: rest := by
    rw [List.dropWhile_cons, if_neg (by simp [hws])]
  simp [parseIntJS, hdrop, h45, h43, takeWhile_all hd]

theorem parseIntJS_natToStr (n : Nat) :
    parseIntJS (natToStr n) = some ((n : Int)) := by
  obtain ⟨hne, hdig, hval⟩ := natToStr_spec n
  rw [parseIntJS_digits hne hdig, hval]

theorem parseIntJS_intToStr (z : Int) : parseIntJS (intToStr z) = some z := by
  by_cases hz : z < 0
  · simp only [intToStr, if_pos hz]
    obtain ⟨hne, hdig, hval⟩ := natToStr_spec z.natAbs
    have hdrop : (45 :: natToStr z.natAbs).dropWhile isWS =
        45 :: natToStr z.natAbs := by
      rw [List.dropWhile_cons, if_neg (by simp [isWS])]
    simp [parseIntJS, hdrop, takeWhile_all hdig, hne, hval]
    rw [abs_of_neg hz]
    omega
  · simp only [intToStr, if_neg hz]
    rw [parseIntJS_natToStr]
    congr 1
    omega

theorem intToStr_no_sep (z : Int) : (95 : Nat) ∉ intToStr z := by
  intro hmem
  by_cases hz : z < 0
  · simp only [intToStr, if_pos hz, List.mem_cons] at hmem
    rcases hmem with h | h
    · omega
    · obtain ⟨_, hdig, _⟩ := natToStr_spec z.natAbs
      obtain ⟨_, _, _, h95, _⟩ := isDigitCp_facts (hdig 95 h)
      exact h95 rfl
  · simp only [intToStr, if_neg hz] at hmem
    obtain ⟨_, hdig, _⟩ := natToStr_spec z.toNat
    obtain ⟨_, _, _, h95, _⟩ := isDigitCp_facts (hdig 95 hmem)
    exact h95 rfl

/-! ### `split` / `join` -/

theorem splitU_no_sep : ∀ l : Str, (95 : Nat) ∉ l → splitU l = [l] := by
  intro l
  induction l with
  | nil => intro _; rfl
  | cons c rest ih =>
    intro h
    have hc : c ≠ 95 := fun hc => h (by simp [hc])
    have hrest := ih (fun hm => h (by simp [hm]))
    simp only [splitU, if_neg hc, hrest]

theorem splitU_append :
    ∀ (a b : Str), (95 : Nat) ∉ a → splitU (a ++ 95 :: b) = a :: splitU b := by
  intro a
  induction a with
  | nil =>
    intro b _
    simp [splitU]
  | cons c a' ih =>
    intro b h
    have hc : c ≠ 95 := fun hc => h (by simp [hc])
    have ha' := ih b (fun hm => h (by simp [hm]))
    rw [List.cons_append]
    simp only [splitU, if_neg hc]
    rw [ha']

theorem splitU_joinU :
    ∀ parts : List Str, parts ≠ [] → (∀ p ∈ parts, (95 : Nat) ∉ p) →
      splitU (joinU parts) = parts := by
  intro parts
  induction parts with
  | nil => intro h _; exact absurd rfl h
  | cons x xs ih =>
    intro _ hall
    cases xs with
    | nil => exact splitU_no_sep x (hall x (by simp))
    | cons y ys =>
      have hx : (95 : Nat) ∉ x := hall x (by simp)
      simp only [joinU]
      rw [splitU_append _ _ hx]
      rw [ih (by simp) (fun p hp => hall p (by simp [hp]))]

theorem splitComma_ne_nil : ∀ l : Str, splitComma l ≠ [] := by
  intro l
  induction l with
  | nil => simp [splitComma]
  | cons c rest ih =>
    by_cases hc : c = 44
    · simp [splitComma, hc]
    · simp only [splitComma, if_neg hc]
      rcases h : splitComma rest with _ | ⟨f, r⟩
      · simp
      · simp

/-! ### Stripping the `.pdf` suffix -/

theorem append_pdf_guard (x : Str) :
    (x ++ pdfExt).length ≥ 4 ∧
      (x ++ pdfExt).drop ((x ++ pdfExt).length - 4) = pdfExt := by
  constructor
  · simp [pdfExt]
  · have h : (x ++ pdfExt).length - 4 = x.length := by simp [pdfExt]
    rw [h, List.drop_left]

theorem append_pdf_take (x : Str) :
    (x ++ pdfExt).take ((x ++ pdfExt).length - 4) = x := by
  have h : (x ++ pdfExt).length - 4 = x.length := by simp [pdfExt]
  rw [h, List.take_left]

/-! ### Vocabulary facts -/

theorem validGradeLevels_facts :
    ∀ v ∈ validGradeLevels, normalizeKoreanText v = v ∧ (95 : Nat) ∉ v := by
  decide

theorem validCategories_facts :
    ∀ v ∈ validCategories, normalizeKoreanText v = v ∧ (95 : Nat) ∉ v := by
  decide

theorem validExamTypes_facts :
    ∀ v ∈ validExamTypes, normalizeKoreanText v = v ∧ (95 : Nat) ∉ v := by
  decide

theorem validSources_facts :
    ∀ v ∈ validSources, normalizeKoreanText v = v ∧ (95 : Nat) ∉ v := by
  decide

theorem validDocTypes_facts :
    ∀ v ∈ validDocTypes, normalizeKoreanText v = v ∧ (95 : Nat) ∉ v := by
  decide

/-! ### Structure of successful parses -/

theorem finishParse_inv {g c s sel et ys ms src dt fn : Str}
    {r : ExamMetadata} (h : finishParse g c s sel et ys ms src dt fn = some r) :
    r.grade_level = normalizeKoreanText g ∧
    r.category = normalizeKoreanText c ∧
    r.subject = normalizeKoreanText s ∧
    r.selection = normalizeKoreanText sel ∧
    r.exam_type = normalizeKoreanText et ∧
    r.source = normalizeKoreanText src ∧
    r.doc_type = normalizeKoreanText dt ∧
    r.filename = fn ∧
    parseIntJS ys = some r.exam_year ∧
    parseIntJS ms = some r.exam_month ∧
    r.grade_level ∈ validGradeLevels ∧ r.category ∈ validCategories ∧
    r.exam_type ∈ validExamTypes ∧ r.source ∈ validSources ∧
    r.doc_type ∈ validDocTypes := by
  unfold finishParse at h
  split at h
  all_goals try exact Option.noConfusion h
  split at h
  all_goals try exact Option.noConfusion h
  rename_i y m hy hm hcond
  rw [Option.some.injEq] at h
  subst h
  exact ⟨rfl, rfl, rfl, rfl, rfl, rfl, rfl, rfl, hy, hm, hcond.1, hcond.2.1,
    hcond.2.2.1, hcond.2.2.2.1, hcond.2.2.2.2⟩

theorem finishParse_none_of_nan {g c s sel et ys ms src dt fn : Str}
    (h : parseIntJS ys = none ∨ parseIntJS ms = none) :
    finishParse g c s sel et ys ms src dt fn = none := by
  unfold finishParse
  rcases h with h | h
  · rw [h]
  · rw [h]
    rcases parseIntJS ys with _ | y <;> rfl

theorem parseFilename_cases {f : Str} {r : ExamMetadata}
    (h : parseFilename f = some r) :
    ∃ g c s sel et ys ms src dt,
      finishParse g c s sel et ys ms src dt f = some r := by
  unfold parseFilename at h
  split at h
  · split at h
    · exact ⟨_, _, _, _, _, _, _, _, _, h⟩
    · split at h
      · exact ⟨_, _, _, _, _, _, _, _, _, h⟩
      · split at h
        · exact ⟨_, _, _, _, _, _, _, _, _, h⟩
        · exact ⟨_, _, _, _, _, _, _, _, _, h⟩
    · exact Option.noConfusion h
  · exact Option.noConfusion h

theorem parseFilename_inv {f : Str} {r : ExamMetadata}
    (h : parseFilename f = some r) :
    (normalizeKoreanText r.grade_level = r.grade_level ∧
     normalizeKoreanText r.category = r.category ∧
     normalizeKoreanText r.subject = r.subject ∧
     normalizeKoreanText r.selection = r.selection ∧
     normalizeKoreanText r.exam_type = r.exam_type ∧
     normalizeKoreanText r.source = r.source ∧
     normalizeKoreanText r.doc_type = r.doc_type) ∧
    r.filename = f ∧
    (r.grade_level ∈ validGradeLevels ∧ r.category ∈ validCategories ∧
     r.exam_type ∈ validExamTypes ∧ r.source ∈ validSources ∧
     r.doc_type ∈ validDocTypes) := by
  obtain ⟨g, c, s, sel, et, ys, ms, src, dt, hf⟩ := parseFilename_cases h
  obtain ⟨e1, e2, e3, e4, e5, e6, e7, e8, _, _, m1, m2, m3, m4, m5⟩ :=
    finishParse_inv hf
  refine ⟨⟨?_, ?_, ?_, ?_, ?_, ?_, ?_⟩, e8, m1, m2, m3, m4, m5⟩
  · rw [e1]; exact normalizeKoreanText_idem g
  · rw [e2]; exact normalizeKoreanText_idem c
  · rw [e3]; exact normalizeKoreanText_idem s
  · rw [e4]; exact normalizeKoreanText_idem sel
  · rw [e5]; exact normalizeKoreanText_idem et
  · rw [e6]; exact normalizeKoreanText_idem src
  · rw [e7]; exact normalizeKoreanText_idem dt

theorem parseFilename_none_of_no_pdf {f : Str}
    (h : ∀ x : Str, f ≠ x ++ pdfExt) : parseFilename f = none := by
  unfold parseFilename
  rw [if_neg]
  intro hg
  apply h (f.take (f.length - 4))
  conv_lhs => rw [← List.take_append_drop (f.length - 4) f]
  rw [hg.2]

theorem parseFilename_pdf_of_some {f : Str} {r : ExamMetadata}
    (h : parseFilename f = some r) :
    f.length ≥ 4 ∧ f.drop (f.length - 4) = pdfExt := by
  by_contra hg
  unfold parseFilename at h
  rw [if_neg hg] at h
  exact Option.noConfusion h

/-! ### Distinct values and sorting -/

theorem mem_uniqueAux {α : Type} [DecidableEq α] :
    ∀ (l seen : List α) (x : α),
      x ∈ uniqueAux seen l ↔ x ∈ l ∧ x ∉ seen := by
  intro l
  induction l with
  | nil => intro seen x; simp [uniqueAux]
  | cons y ys ih =>
    intro seen x
    by_cases hy : y ∈ seen
    · rw [uniqueAux, if_pos hy, ih]
      constructor
      · rintro ⟨h1, h2⟩; exact ⟨List.mem_cons_of_mem y h1, h2⟩
      · rintro ⟨h1, h2⟩
        rcases List.mem_cons.mp h1 with rfl | h1'
        · exact absurd hy h2
        · exact ⟨h1', h2⟩
    · rw [uniqueAux, if_neg hy]
      rw [List.mem_cons, ih]
      constructor
      · rintro (rfl | ⟨h1, h2⟩)
        · exact ⟨List.mem_cons_self x ys, hy⟩
        · rw [List.mem_cons, not_or] at h2
          exact ⟨List.mem_cons_of_mem y h1, h2.2⟩
      · rintro ⟨h1, h2⟩
        by_cases hxy : x = y
        · exact Or.inl hxy
        · rcases List.mem_cons.mp h1 with rfl | h1'
          · exact absurd rfl hxy
          · exact Or.inr ⟨h1', by rw [List.mem_cons, not_or]; exact ⟨hxy, h2⟩⟩

theorem nodup_uniqueAux {α : Type} [DecidableEq α] :
    ∀ (l seen : List α), (uniqueAux seen l).Nodup := by
  intro l
  induction l with
  | nil => intro seen; simp [uniqueAux]
  | cons y ys ih =>
    intro seen
    by_cases hy : y ∈ seen
    · rw [uniqueAux, if_pos hy]; exact ih seen
    · rw [uniqueAux, if_neg hy, List.nodup_cons]
      refine ⟨?_, ih (y :: seen)⟩
      intro hmem
      exact ((mem_uniqueAux ys (y :: seen) y).mp hmem).2 (List.mem_cons_self y seen)

theorem mem_uniqueFirst {α : Type} [DecidableEq α] {l : List α} {x : α} :
    x ∈ uniqueFirst l ↔ x ∈ l := by
  rw [uniqueFirst, mem_uniqueAux]
  simp

theorem nodup_uniqueFirst {α : Type} [DecidableEq α] (l : List α) :
    (uniqueFirst l).Nodup :=
  nodup_uniqueAux l []

/-! ### Filter field semantics -/

theorem strFieldOk_iff (v : Str) (o : Option (List Str)) :
    strFieldOk v o = true ↔ fieldConstrStr v o := by
  cases o with
  | none =>
    simp only [strFieldOk, fieldConstrStr, true_iff]
    intro l hl
    exact Option.noConfusion hl
  | some l =>
    by_cases hl : l = []
    · subst hl
      simp only [strFieldOk, List.length_nil, lt_irrefl, if_false,
        fieldConstrStr, true_iff]
      intro l' he hne
      rw [Option.some.injEq] at he
      exact absurd he.symm hne
    · have hlen : 0 < l.length := List.length_pos.mpr hl
      simp only [strFieldOk, if_pos hlen, decide_eq_true_eq, fieldConstrStr]
      constructor
      · intro hmem l' he _
        rw [Option.some.injEq] at he
        subst he
        exact hmem
      · intro hc
        exact hc l rfl hl

theorem numFieldOk_iff (v : Int) (o : Option (List (Option Int))) :
    numFieldOk v o = true ↔ fieldConstrNum v o := by
  cases o with
  | none =>
    simp only [numFieldOk, fieldConstrNum, true_iff]
    intro l hl
    exact Option.noConfusion hl
  | some l =>
    by_cases hl : l = []
    · subst hl
      simp only [numFieldOk, List.length_nil, lt_irrefl, if_false,
        fieldConstrNum, true_iff]
      intro l' he hne
      rw [Option.some.injEq] at he
      exact absurd he.symm hne
    · have hlen : 0 < l.length := List.length_pos.mpr hl
      simp only [numFieldOk, if_pos hlen, decide_eq_true_eq, fieldConstrNum]
      constructor
      · intro hmem l' he _
        rw [Option.some.injEq] at he
        subst he
        exact hmem
      · intro hc
        exact hc l rfl hl

theorem parseFilename_nine (name p0 p1 p2 p3 p4 p5 p6 p7 p8 : Str)
    (hsplit : splitU name = [p0, p1, p2, p3, p4, p5, p6, p7, p8]) :
    parseFilename (name ++ pdfExt) =
      if p3 = [] then
        finishParse p0 p1 p2 [] p4 p5 p6 p7 p8 (name ++ pdfExt)
      else if p3 ∈ validExamTypes then
        finishParse p0 p1 p2 [] p3 p4 p5 p6 p7 (name ++ pdfExt)
      else finishParse p0 p1 p2 p3 p4 p5 p6 p7 p8 (name ++ pdfExt) := by
  unfold parseFilename
  rw [if_pos (append_pdf_guard name), append_pdf_take, hsplit]

theorem finishParse_eval {g c s sel et src dt fname ys ms : Str}
    {y m : Int} (hy : parseIntJS ys = some y) (hm : parseIntJS ms = some m)
    (hcond : normalizeKoreanText g ∈ validGradeLevels ∧
      normalizeKoreanText c ∈ validCategories ∧
      normalizeKoreanText et ∈ validExamTypes ∧
      normalizeKoreanText src ∈ validSources ∧
      normalizeKoreanText dt ∈ validDocTypes) :
    finishParse g c s sel et ys ms src dt fname =
      some { grade_level := normalizeKoreanText g,
             category := normalizeKoreanText c,
             subject := normalizeKoreanText s,
             selection := normalizeKoreanText sel,
             exam_type := normalizeKoreanText et, exam_year := y,
             exam_month := m, source := normalizeKoreanText src,
             doc_type := normalizeKoreanText dt, filename := fname } := by
  unfold finishParse
  rw [hy, hm]
  exact if_pos hcond

/-! ### `NaN` entries in numeric filters -/

theorem mem_wellFormed (v : Int) (l : List (Option Int)) :
    some v ∈ (l.filterMap id).map some ↔ some v ∈ l := by
  simp only [List.mem_map, List.mem_filterMap, id_eq]
  constructor
  · rintro ⟨a, ⟨b, hb, rfl⟩, hav⟩
    rw [Option.some.injEq] at hav
    subst hav
    exact hb
  · intro h
    exact ⟨v, ⟨some v, h, rfl⟩, rfl⟩

theorem numFieldOk_wellFormedOnly (v : Int) (o : Option (List (Option Int)))
    (h : ∀ l, o = some l → l.filterMap id ≠ []) :
    numFieldOk v (wellFormedOnly o) = numFieldOk v o := by
  cases o with
  | none => rfl
  | some l =>
    have hne := h l rfl
    have hlen1 : 0 < ((l.filterMap id).map some).length := by
      rw [List.length_map]
      exact List.length_pos.mpr hne
    have hlen2 : 0 < l.length := by
      cases l with
      | nil => simp at hne
      | cons a l' => simp
    show numFieldOk v (some ((l.filterMap id).map some)) = numFieldOk v (some l)
    rw [numFieldOk, numFieldOk, if_pos hlen1, if_pos hlen2]
    rw [decide_eq_decide]
    exact mem_wellFormed v l

theorem some_not_mem_of_filterMap_nil {L : List (Option Int)}
    (h : L.filterMap id = []) (v : Int) : some v ∉ L := by
  intro hv
  have hm : v ∈ L.filterMap id := List.mem_filterMap.mpr ⟨some v, hv, rfl⟩
  rw [h] at hm
  exact absurd hm (List.not_mem_nil v)

/-! ### Batch upload helpers -/

theorem endsWithPdf_of_isSome {f : Str}
    (h : (parseFilename f).isSome = true) : endsWithPdf f = true := by
  rcases hp : parseFilename f with _ | r
  · rw [hp] at h; simp at h
  · obtain ⟨h1, h2⟩ := parseFilename_pdf_of_some hp
    simp [endsWithPdf, h1, h2]

/-! ## Claim theorems -/

/-- C1: `getDocumentsWithFilters` implements AND across fields with OR
within a field: a document is in the result iff it is in the catalog and,
for every field present in the filters (with a non-empty value set, the
only shape the HTTP layer produces), the document's value for that field
is a member of the provided (normalized) set; absent fields impose no
constraint.  In particular, with D1(고3, 국어, 2024), D2(고3, 수학, 2024),
D3(고2, 국어, 2023): filtering by grade_levels={고3},
categories={국어, 수학} returns exactly [D1, D2]; filtering by
exam_years={2023} returns exactly [D3]; filtering by no fields returns all
three. -/
theorem claim1_and_or_filter_semantics :
    (∀ (f : DocumentFilters) (docs : List Document) (d : Document),
      d ∈ getDocumentsWithFilters f docs ↔
        d ∈ docs ∧ fieldConstrStr d.grade_level f.grade_levels ∧
          fieldConstrStr d.category f.categories ∧
          fieldConstrNum d.exam_year f.exam_years ∧
          fieldConstrNum d.exam_month f.exam_months) ∧
    getDocumentsWithFilters exF1 [exD1, exD2, exD3] = [exD1, exD2] ∧
    getDocumentsWithFilters exF2 [exD1, exD2, exD3] = [exD3] ∧
    getDocumentsWithFilters exFnone [exD1, exD2, exD3] =
      [exD1, exD2, exD3] := by
  refine ⟨?_, by decide, by decide, by decide⟩
  intro f docs d
  rw [getDocumentsWithFilters, List.mem_filter, matchesFilters]
  rw [Bool.and_eq_true, Bool.and_eq_true, Bool.and_eq_true]
  rw [strFieldOk_iff, strFieldOk_iff, numFieldOk_iff, numFieldOk_iff]
  tauto

/-- Witness for C1: the general equivalence applied to the concrete
filter `exF1`, catalog `[exD1, exD2, exD3]` and document `exD1`. -/
theorem claim1_witness :
    exD1 ∈ getDocumentsWithFilters exF1 [exD1, exD2, exD3] ↔
      exD1 ∈ [exD1, exD2, exD3] ∧
        fieldConstrStr exD1.grade_level exF1.grade_levels ∧
        fieldConstrStr exD1.category exF1.categories ∧
        fieldConstrNum exD1.exam_year exF1.exam_years ∧
        fieldConstrNum exD1.exam_month exF1.exam_months :=
  claim1_and_or_filter_semantics.1 exF1 [exD1, exD2, exD3] exD1

/-- C4: every metadata record the parser returns has all seven
Korean-text fields in canonical precomposed form
(`normalizeKoreanText field = field`), while `filename` equals the input
verbatim; and the `documents` row the upload pipeline builds from such a
record carries those same canonical fields (and the verbatim
filename). -/
theorem claim4_canonical_fields :
    ∀ (f : Str) (r : ExamMetadata), parseFilename f = some r →
      (normalizeKoreanText r.grade_level = r.grade_level ∧
       normalizeKoreanText r.category = r.category ∧
       normalizeKoreanText r.subject = r.subject ∧
       normalizeKoreanText r.selection = r.selection ∧
       normalizeKoreanText r.exam_type = r.exam_type ∧
       normalizeKoreanText r.source = r.source ∧
       normalizeKoreanText r.doc_type = r.doc_type) ∧
      r.filename = f ∧
      ∀ id ts sp : Str,
        (buildSupabaseRecord id ts r sp).grade_level = r.grade_level ∧
        (buildSupabaseRecord id ts r sp).category = r.category ∧
        (buildSupabaseRecord id ts r sp).subject = r.subject ∧
        (buildSupabaseRecord id ts r sp).selection = r.selection ∧
        (buildSupabaseRecord id ts r sp).exam_type = r.exam_type ∧
        (buildSupabaseRecord id ts r sp).source = r.source ∧
        (buildSupabaseRecord id ts r sp).filename = f := by
  intro f r h
  obtain ⟨hn, hfn, _⟩ := parseFilename_inv h
  exact ⟨hn, hfn, fun _ _ _ => ⟨rfl, rfl, rfl, rfl, rfl, rfl, hfn⟩⟩

/-- Witness for C4: the canonical-form conjunction at the concretely
parsed `exFilename`. -/
theorem claim4_witness :
    normalizeKoreanText exMeta.grade_level = exMeta.grade_level ∧
    normalizeKoreanText exMeta.category = exMeta.category ∧
    normalizeKoreanText exMeta.subject = exMeta.subject ∧
    normalizeKoreanText exMeta.selection = exMeta.selection ∧
    normalizeKoreanText exMeta.exam_type = exMeta.exam_type ∧
    normalizeKoreanText exMeta.source = exMeta.source ∧
    normalizeKoreanText exMeta.doc_type = exMeta.doc_type :=
  (claim4_canonical_fields exFilename exMeta (by decide)).1

/-- C5: the text normalizer is idempotent; it is a no-op on text already
in canonical (composed) form; and the empty input is returned
unchanged. -/
theorem claim5_normalize_idempotent :
    (∀ s : Str,
       normalizeKoreanText (normalizeKoreanText s) = normalizeKoreanText s) ∧
    (∀ s : Str, Composed s → normalizeKoreanText s = s) ∧
    normalizeKoreanText [] = [] :=
  ⟨normalizeKoreanText_idem, fun _ h => normalizeKoreanText_fixed h, rfl⟩

/-- Witness for C5: the no-op clause applied to the canonical string
`고3`. -/
theorem claim5_witness :
    Composed sGo3 ∧ normalizeKoreanText sGo3 = sGo3 :=
  ⟨by decide, claim5_normalize_idempotent.2.1 sGo3 (by decide)⟩

/-- C9: `getAvailableFilterValues` returns, per dimension, exactly the
distinct values observed across the catalog (textual values normalized),
with grade levels and categories sorted ascending lexicographically (the
JS code-unit order `StrLe`), years sorted descending, months ascending,
and no duplicates; for a catalog with years {2024, 2022, 2024, 2023} the
years come back as exactly [2024, 2023, 2022]. -/
theorem claim9_available_filter_values :
    (∀ (docs : List Document) (x : Str),
       x ∈ (getAvailableFilterValues docs).grade_levels ↔
         ∃ d ∈ docs, normalizeKoreanText d.grade_level = x) ∧
    (∀ (docs : List Document) (x : Str),
       x ∈ (getAvailableFilterValues docs).categories ↔
         ∃ d ∈ docs, normalizeKoreanText d.category = x) ∧
    (∀ (docs : List Document) (y : Int),
       y ∈ (getAvailableFilterValues docs).exam_years ↔
         ∃ d ∈ docs, d.exam_year = y) ∧
    (∀ (docs : List Document) (y : Int),
       y ∈ (getAvailableFilterValues docs).exam_months ↔
         ∃ d ∈ docs, d.exam_month = y) ∧
    (∀ docs : List Document,
       (getAvailableFilterValues docs).grade_levels.Sorted StrLe ∧
       (getAvailableFilterValues docs).grade_levels.Nodup ∧
       (getAvailableFilterValues docs).categories.Sorted StrLe ∧
       (getAvailableFilterValues docs).categories.Nodup ∧
       (getAvailableFilterValues docs).exam_years.Sorted
         (fun a b : Int => b ≤ a) ∧
       (getAvailableFilterValues docs).exam_years.Nodup ∧
       (getAvailableFilterValues docs).exam_months.Sorted
         (fun a b : Int => a ≤ b) ∧
       (getAvailableFilterValues docs).exam_months.Nodup) ∧
    (getAvailableFilterValues exDocs9).exam_years = [2024, 2023, 2022] := by
  refine ⟨?_, ?_, ?_, ?_, ?_, by decide⟩
  · intro docs x
    simp [getAvailableFilterValues, List.mem_insertionSort, mem_uniqueFirst]
  · intro docs x
    simp [getAvailableFilterValues, List.mem_insertionSort, mem_uniqueFirst]
  · intro docs y
    simp [getAvailableFilterValues, List.mem_insertionSort, mem_uniqueFirst]
  · intro docs y
    simp [getAvailableFilterValues, List.mem_insertionSort, mem_uniqueFirst]
  · intro docs
    refine ⟨List.sorted_insertionSort _ _,
      (List.perm_insertionSort _ _).nodup_iff.mpr (nodup_uniqueFirst _),
      List.sorted_insertionSort _ _,
      (List.perm_insertionSort _ _).nodup_iff.mpr (nodup_uniqueFirst _),
      List.sorted_insertionSort _ _,
      (List.perm_insertionSort _ _).nodup_iff.mpr (nodup_uniqueFirst _),
      List.sorted_insertionSort _ _,
      (List.perm_insertionSort _ _).nodup_iff.mpr (nodup_uniqueFirst _)⟩

/-- C3: on a 9-field filename whose index-3 field is non-empty and is a
member of the exam-type vocabulary, the parser treats the selection as
absent, takes field 3 as the exam type, and reads the remaining fields at
the shifted positions (year from field 4, month from field 5, source from
field 6, doc type from field 7; field 8 is dropped): the exam-type match
takes precedence over reading field 3 as a selection value. -/
theorem claim3_examtype_precedence :
    ∀ (name p0 p1 p2 p3 p4 p5 p6 p7 p8 : Str),
      splitU name = [p0, p1, p2, p3, p4, p5, p6, p7, p8] →
      p3 ≠ [] → p3 ∈ validExamTypes →
      parseFilename (name ++ pdfExt) =
        finishParse p0 p1 p2 [] p3 p4 p5 p6 p7 (name ++ pdfExt) := by
  intro name p0 p1 p2 p3 p4 p5 p6 p7 p8 hsplit hne hmem
  rw [parseFilename_nine name p0 p1 p2 p3 p4 p5 p6 p7 p8 hsplit]
  rw [if_neg hne, if_pos hmem]

/-- Witness for C3: the shifted parse of
`고3_국어_국어_수능_2024_11_평가원_problem_X.pdf`, whose index-3 field is
the exam type `수능`. -/
theorem claim3_witness :
    parseFilename (exName3 ++ pdfExt) =
      finishParse sGo3 sKorean sKorean [] sCSAT (natToStr 2024)
        (natToStr 11) sEval sProblem (exName3 ++ pdfExt) :=
  claim3_examtype_precedence exName3 sGo3 sKorean sKorean sCSAT
    (natToStr 2024) (natToStr 11) sEval sProblem [88] (by decide)
    (by decide) (by decide)

/-- C2 counterexample: `cexRecord` has every vocabulary field valid and
integral year and month, yet `parse(buildFilename(cexRecord))` is `none`
rather than the record: its selection `수능` collides with the exam-type
vocabulary, so the parser shifts the fields and then fails on
`parseInt('수능')`.  The claim quantifies over all records with valid
vocabulary fields, so it fails here. -/
theorem claim2_counterexample :
    parseFilename (buildFilename cexRecord) = none ∧
    cexRecord.grade_level ∈ validGradeLevels ∧
    cexRecord.category ∈ validCategories ∧
    cexRecord.exam_type ∈ validExamTypes ∧
    cexRecord.source ∈ validSources ∧
    cexRecord.doc_type ∈ validDocTypes := by decide

/-- C2 (amended): the filename round-trip holds for every record whose
five closed-vocabulary fields are valid, provided additionally that the
free-text subject and selection contain no underscore, are already in
canonical (NFC) form, and the selection is not itself an exam-type
vocabulary value: the parser then recovers all nine metadata fields
exactly. -/
theorem claim2_roundtrip (r : ExamMetadata)
    (hg : r.grade_level ∈ validGradeLevels)
    (hc : r.category ∈ validCategories)
    (het : r.exam_type ∈ validExamTypes)
    (hsrc : r.source ∈ validSources)
    (hdt : r.doc_type ∈ validDocTypes)
    (hsubU : (95 : Nat) ∉ r.subject)
    (hsubN : normalizeKoreanText r.subject = r.subject)
    (hselU : (95 : Nat) ∉ r.selection)
    (hselN : normalizeKoreanText r.selection = r.selection)
    (hselE : r.selection ∉ validExamTypes) :
    ∃ r', parseFilename (buildFilename r) = some r' ∧
      r'.grade_level = r.grade_level ∧ r'.category = r.category ∧
      r'.subject = r.subject ∧ r'.selection = r.selection ∧
      r'.exam_type = r.exam_type ∧ r'.exam_year = r.exam_year ∧
      r'.exam_month = r.exam_month ∧ r'.source = r.source ∧
      r'.doc_type = r.doc_type := by
  obtain ⟨hgN, hgU⟩ := validGradeLevels_facts _ hg
  obtain ⟨hcN, hcU⟩ := validCategories_facts _ hc
  obtain ⟨hetN, hetU⟩ := validExamTypes_facts _ het
  obtain ⟨hsrcN, hsrcU⟩ := validSources_facts _ hsrc
  obtain ⟨hdtN, hdtU⟩ := validDocTypes_facts _ hdt
  have hparts : splitU (joinU [r.grade_level, r.category, r.subject,
      r.selection, r.exam_type, intToStr r.exam_year,
      intToStr r.exam_month, r.source, r.doc_type]) =
      [r.grade_level, r.category, r.subject, r.selection, r.exam_type,
       intToStr r.exam_year, intToStr r.exam_month, r.source,
       r.doc_type] := by
    refine splitU_joinU _ (by simp) ?_
    intro p hp
    simp only [List.mem_cons, List.not_mem_nil, or_false] at hp
    rcases hp with rfl | rfl | rfl | rfl | rfl | rfl | rfl | rfl | rfl
    · exact hgU
    · exact hcU
    · exact hsubU
    · exact hselU
    · exact hetU
    · exact intToStr_no_sep r.exam_year
    · exact intToStr_no_sep r.exam_month
    · exact hsrcU
    · exact hdtU
  have hcond : normalizeKoreanText r.grade_level ∈ validGradeLevels ∧
      normalizeKoreanText r.category ∈ validCategories ∧
      normalizeKoreanText r.exam_type ∈ validExamTypes ∧
      normalizeKoreanText r.source ∈ validSources ∧
      normalizeKoreanText r.doc_type ∈ validDocTypes := by
    rw [hgN, hcN, hetN, hsrcN, hdtN]
    exact ⟨hg, hc, het, hsrc, hdt⟩
  rw [show buildFilename r = joinU [r.grade_level, r.category, r.subject,
    r.selection, r.exam_type, intToStr r.exam_year, intToStr r.exam_month,
    r.source, r.doc_type] ++ pdfExt from rfl]
  rw [parseFilename_nine _ _ _ _ _ _ _ _ _ _ hparts]
  by_cases hsel : r.selection = []
  · rw [if_pos hsel]
    rw [finishParse_eval (parseIntJS_intToStr r.exam_year)
      (parseIntJS_intToStr r.exam_month) hcond]
    refine ⟨_, rfl, hgN, hcN, hsubN, ?_, hetN, rfl, rfl, hsrcN, hdtN⟩
    rw [hsel]
    rfl
  · rw [if_neg hsel, if_neg hselE]
    rw [finishParse_eval (parseIntJS_intToStr r.exam_year)
      (parseIntJS_intToStr r.exam_month) hcond]
    exact ⟨_, rfl, hgN, hcN, hsubN, hselN, hetN, rfl, rfl, hsrcN, hdtN⟩

/-- Witness for C2 (amended): the round trip at `exMeta` (empty
selection). -/
theorem claim2_witness :
    ∃ r', parseFilename (buildFilename exMeta) = some r' ∧
      r'.grade_level = exMeta.grade_level ∧ r'.category = exMeta.category ∧
      r'.subject = exMeta.subject ∧ r'.selection = exMeta.selection ∧
      r'.exam_type = exMeta.exam_type ∧ r'.exam_year = exMeta.exam_year ∧
      r'.exam_month = exMeta.exam_month ∧ r'.source = exMeta.source ∧
      r'.doc_type = exMeta.doc_type :=
  claim2_roundtrip exMeta (by decide) (by decide) (by decide) (by decide)
    (by decide) (by decide) (by decide) (by decide) (by decide) (by decide)

/-- C6 counterexample: the filename
`고3_국어_국어__수능_2024x_11_평가원_problem.pdf` has the non-integer year
field `2024x`, yet the parser accepts it (JS `parseInt` reads the digit
prefix `2024`), contradicting the claim that such filenames are
rejected. -/
theorem claim6_counterexample : parseFilename cexFilename6 = some cexMeta6 := by
  decide

/-- C6 (amended): rejection is total and the parser never produces
partial metadata — a filename without the `.pdf` suffix is rejected; a
filename whose name part splits into fewer than 8 or more than 9 fields
is rejected; every record the parser does return has all five
closed-vocabulary fields valid; and a year or month field on which
`parseInt` yields `NaN` (no digit prefix — rather than any non-integer
text) rejects the filename. -/
theorem claim6_rejection_total :
    (∀ f : Str, (∀ x : Str, f ≠ x ++ pdfExt) → parseFilename f = none) ∧
    (∀ x : Str, (splitU x).length ≠ 8 → (splitU x).length ≠ 9 →
       parseFilename (x ++ pdfExt) = none) ∧
    (∀ (f : Str) (r : ExamMetadata), parseFilename f = some r →
       r.grade_level ∈ validGradeLevels ∧ r.category ∈ validCategories ∧
       r.exam_type ∈ validExamTypes ∧ r.source ∈ validSources ∧
       r.doc_type ∈ validDocTypes) ∧
    (∀ g c s sel et ys ms src dt fn : Str,
       parseIntJS ys = none ∨ parseIntJS ms = none →
       finishParse g c s sel et ys ms src dt fn = none) := by
  refine ⟨fun f h => parseFilename_none_of_no_pdf h, ?_,
    fun f r h => (parseFilename_inv h).2.2,
    fun g c s sel et ys ms src dt fn h => finishParse_none_of_nan h⟩
  intro x h8 h9
  unfold parseFilename
  rw [if_pos (append_pdf_guard x), append_pdf_take]
  rcases hs : splitU x with _ | ⟨p0, _ | ⟨p1, _ | ⟨p2, _ | ⟨p3, _ | ⟨p4,
    _ | ⟨p5, _ | ⟨p6, _ | ⟨p7, _ | ⟨p8, _ | ⟨p9, rest⟩⟩⟩⟩⟩⟩⟩⟩⟩⟩
  · rfl
  · rfl
  · rfl
  · rfl
  · rfl
  · rfl
  · rfl
  · rfl
  · rw [hs] at h8; simp at h8
  · rw [hs] at h9; simp at h9
  · rfl

/-- Witness for C6 (amended): a suffix-less name, a 1-field name and a
`NaN` year each evaluate to a rejection. -/
theorem claim6_witness :
    parseFilename [102] = none ∧
    parseFilename ([97] ++ pdfExt) = none ∧
    finishParse [] [] [] [] [] [120] [] [] [] [] = none :=
  ⟨claim6_rejection_total.1 [102]
      (fun x hx => by
        have hl := congrArg List.length hx
        simp [pdfExt] at hl),
    claim6_rejection_total.2.1 [97] (by decide) (by decide),
    claim6_rejection_total.2.2.2 [] [] [] [] [] [120] [] [] [] []
      (Or.inl (by decide))⟩

/-- C7 counterexample: the query `exam_years=x` parses to the set
`{NaN}`, which the controller passes through (it is non-empty), so the
filter matches nothing and the endpoint returns `[]`; the filter built
from only the well-formed entries (the empty set) imposes no constraint
and returns the whole catalog.  The two differ, so the "silently
dropped" claim fails as stated. -/
theorem claim7_counterexample :
    getDocumentsWithFilters (buildFilters none none (some [120]) none)
        [exD1] = [] ∧
      getDocumentsWithFilters
        (dropMalformedFilters (buildFilters none none (some [120]) none))
        [exD1] = [exD1] := by
  decide

/-- C7 (amended): malformed numeric entries become `NaN` values that stay
in the set but match no document; hence whenever each present numeric
parameter retains at least one well-formed entry, the response equals the
one computed from only the well-formed entries (and the request is never
aborted); a numeric parameter whose entries are all malformed yields an
empty result instead of an unconstrained query. -/
theorem claim7_nan_entries :
    (∀ (gl cat ys ms : Option Str) (docs : List Document),
       (∀ s, ys = some s → s ≠ [] →
         ((splitComma s).map
           (fun e => parseIntJS (trimStr e))).filterMap id ≠ []) →
       (∀ s, ms = some s → s ≠ [] →
         ((splitComma s).map
           (fun e => parseIntJS (trimStr e))).filterMap id ≠ []) →
       getDocumentsWithFilters (buildFilters gl cat ys ms) docs =
         getDocumentsWithFilters
           (dropMalformedFilters (buildFilters gl cat ys ms)) docs) ∧
    (∀ (gl cat ms : Option Str) (docs : List Document) (s : Str),
       s ≠ [] →
       ((splitComma s).map
         (fun e => parseIntJS (trimStr e))).filterMap id = [] →
       getDocumentsWithFilters (buildFilters gl cat (some s) ms) docs =
         []) := by
  constructor
  · intro gl cat ys ms docs hys hms
    have hy' : ∀ l, (buildFilters gl cat ys ms).exam_years = some l →
        l.filterMap id ≠ [] := by
      intro l hl
      cases ys with
      | none => exact Option.noConfusion hl
      | some s =>
        by_cases hs : s = []
        · simp only [buildFilters, if_pos hs] at hl
          exact Option.noConfusion hl
        · simp only [buildFilters, if_neg hs, Option.some.injEq] at hl
          subst hl
          exact hys s rfl hs
    have hm' : ∀ l, (buildFilters gl cat ys ms).exam_months = some l →
        l.filterMap id ≠ [] := by
      intro l hl
      cases ms with
      | none => exact Option.noConfusion hl
      | some s =>
        by_cases hs : s = []
        · simp only [buildFilters, if_pos hs] at hl
          exact Option.noConfusion hl
        · simp only [buildFilters, if_neg hs, Option.some.injEq] at hl
          subst hl
          exact hms s rfl hs
    unfold getDocumentsWithFilters
    apply List.filter_congr
    intro d _
    show matchesFilters _ d = matchesFilters _ d
    unfold matchesFilters dropMalformedFilters
    rw [numFieldOk_wellFormedOnly _ _ hy', numFieldOk_wellFormedOnly _ _ hm']
  · intro gl cat ms docs s hs hwf
    unfold getDocumentsWithFilters
    apply List.filter_eq_nil_iff.mpr
    intro d _
    have hfield : (buildFilters gl cat (some s) ms).exam_years =
        some ((splitComma s).map (fun e => parseIntJS (trimStr e))) := by
      simp only [buildFilters, if_neg hs]
    intro hmatch
    rw [matchesFilters, Bool.and_eq_true, Bool.and_eq_true,
      Bool.and_eq_true] at hmatch
    have hnum := hmatch.1.2
    rw [hfield, numFieldOk] at hnum
    have hlen : 0 < ((splitComma s).map
        (fun e => parseIntJS (trimStr e))).length := by
      rw [List.length_map]
      exact List.length_pos.mpr (splitComma_ne_nil s)
    rw [if_pos hlen, decide_eq_true_eq] at hnum
    exact some_not_mem_of_filterMap_nil hwf d.exam_year hnum

/-- Witness for C7 (amended): for the query `exam_years=2024,x` over the
one-document catalog `[exD1]`, the response equals the one computed from
the well-formed entries only. -/
theorem claim7_witness :
    getDocumentsWithFilters (buildFilters none none (some cexYearsQ) none)
        [exD1] =
      getDocumentsWithFilters
        (dropMalformedFilters
          (buildFilters none none (some cexYearsQ) none)) [exD1] :=
  claim7_nan_entries.1 none none (some cexYearsQ) none [exD1]
    (fun s hs _ => by
      rw [Option.some.injEq] at hs
      subst hs
      decide)
    (fun s hs => Option.noConfusion hs)

/-- C8: the storage path the upload pipeline stores for a parsed document
is a function of the parsed metadata, not of the generated id: for the
concretely parsed `exMeta` it is
`exams/고3/국어/국어/2024/11/평가원/problem.pdf`, and it differs from
`documents/{id}.pdf` for every id — the form the claim (and the
thumbnail maintenance scripts, which read `documents/{id}.pdf`)
require. -/
theorem claim8_storage_path_not_id :
    generateStoragePath exMeta = exStoragePath ∧
    ∀ id : Str,
      generateStoragePath exMeta ≠
        [100, 111, 99, 117, 109, 101, 110, 116, 115, 47] ++ id ++ pdfExt := by
  refine ⟨by decide, ?_⟩
  intro id h
  have h1 : (generateStoragePath exMeta).head? = some 101 := by decide
  rw [h] at h1
  simp at h1

/-- C10: the batch upload loop never aborts: for a directory listing of
parseable `.pdf` files `A ++ B` that upload successfully plus one
unparseable `.pdf` file, every file is processed, yielding exactly
`|A| + |B|` ingestions and exactly one skip. -/
theorem claim10_batch_resilience (A B : List Str) (bad : Str)
    (s3ok dbok : Str → Bool)
    (hA : ∀ f ∈ A, (parseFilename f).isSome = true ∧ s3ok f = true ∧
      dbok f = true)
    (hB : ∀ f ∈ B, (parseFilename f).isSome = true ∧ s3ok f = true ∧
      dbok f = true)
    (hbadPdf : endsWithPdf bad = true)
    (hbad : parseFilename bad = none) :
    (uploadAllFiles s3ok dbok (A ++ bad :: B)).length =
      A.length + B.length + 1 ∧
    (uploadAllFiles s3ok dbok (A ++ bad :: B)).count
      ProcessOutcome.uploaded = A.length + B.length ∧
    (uploadAllFiles s3ok dbok (A ++ bad :: B)).count
      ProcessOutcome.skippedInvalid = 1 := by
  have hfilter : (A ++ bad :: B).filter endsWithPdf = A ++ bad :: B := by
    rw [List.filter_eq_self]
    intro a ha
    rcases List.mem_append.mp ha with h | h
    · exact endsWithPdf_of_isSome (hA a h).1
    · rcases List.mem_cons.mp h with rfl | h'
      · exact hbadPdf
      · exact endsWithPdf_of_isSome (hB a h').1
  have hproc : ∀ (L : List Str),
      (∀ f ∈ L, (parseFilename f).isSome = true ∧ s3ok f = true ∧
        dbok f = true) →
      L.map (processFile s3ok dbok) =
        List.replicate L.length ProcessOutcome.uploaded := by
    intro L hL
    rw [List.eq_replicate_iff]
    refine ⟨by rw [List.length_map], ?_⟩
    intro b hb
    obtain ⟨f, hf, rfl⟩ := List.mem_map.mp hb
    obtain ⟨h1, h2, h3⟩ := hL f hf
    rcases hp : parseFilename f with _ | rr
    · rw [hp] at h1; simp at h1
    · simp [processFile, hp, h2, h3]
  have hbadO : processFile s3ok dbok bad = ProcessOutcome.skippedInvalid := by
    simp [processFile, hbad]
  rw [uploadAllFiles, hfilter, List.map_append, List.map_cons, hbadO,
    hproc A hA, hproc B hB]
  refine ⟨?_, ?_, ?_⟩
  · simp only [List.length_append, List.length_cons, List.length_replicate]
    omega
  · simp [List.count_append, List.count_cons, List.count_replicate]
  · simp [List.count_append, List.count_cons, List.count_replicate]

/-- Witness for C10: a batch of one valid file and one unparseable
`.pdf` file, with both external stores accepting everything. -/
theorem claim10_witness :
    (uploadAllFiles (fun _ => true) (fun _ => true)
        ([exFilename] ++ cexBadFile :: [])).length = 2 ∧
    (uploadAllFiles (fun _ => true) (fun _ => true)
        ([exFilename] ++ cexBadFile :: [])).count
      ProcessOutcome.uploaded = 1 ∧
    (uploadAllFiles (fun _ => true) (fun _ => true)
        ([exFilename] ++ cexBadFile :: [])).count
      ProcessOutcome.skippedInvalid = 1 :=
  claim10_batch_resilience [exFilename] [] cexBadFile (fun _ => true)
    (fun _ => true) (by decide) (by decide) (by decide) (by decide)

end DasyCsat
